import Mathlib

set_option maxRecDepth 4000

/-!
Verification of the asset-selection and checksum-verification pipeline of
gh-install.  Go functions from utils/hash.go, utils/os.go, the utils
argument/matching/checksum code and cmd/root.go are shallowly embedded as
executable Lean definitions.  File contents are passed explicitly (a checksum
manifest is a list of its lines), and hashing of on-disk files is abstracted
as an oracle argument, so every definition stays computable.
-/

namespace GhInstall

/-- ASCII fragment of Go strings.ToLower, applied character-wise.  All inputs
relevant to the embedded functions (algorithm names, asset file names) are
ASCII. -/
def asciiToLower (c : Char) : Char :=
  if 'A' ≤ c ∧ c ≤ 'Z' then Char.ofNat (c.toNat + 32) else c

/-- Go strings.ToLower on the ASCII fragment. -/
def strToLower (s : String) : String := String.mk (s.data.map asciiToLower)

/-- Go strings.TrimPrefix: drop the prefix if present, else return the list
unchanged. -/
def trimPreL (l pre : List Char) : List Char :=
  if pre.isPrefixOf l then l.drop pre.length else l

/-- Substring test on character lists: true when sub occurs contiguously in l.
This is the semantics of an unanchored literal regexp match. -/
def containsSub : List Char → List Char → Bool
  | _, [] => true
  | [], _ :: _ => false
  | c :: cs, sub => sub.isPrefixOf (c :: cs) || containsSub cs sub

/-- Suffix of l that follows the first occurrence of sub, when sub occurs. -/
def dropAfterFirst (sub : List Char) : List Char → Option (List Char)
  | [] => if sub.isPrefixOf ([] : List Char) then some [] else none
  | c :: cs =>
      if sub.isPrefixOf (c :: cs) then some ((c :: cs).drop sub.length)
      else dropAfterFirst sub cs

/-- Semantics of the unanchored regexp .*a.*b.* on a literal text: an
occurrence of a followed (disjointly) by an occurrence of b.  Taking the
first occurrence of a is equivalent to the existential reading, because the
earliest occurrence leaves the longest suffix for b. -/
def containsThen (l a b : List Char) : Bool :=
  match dropAfterFirst a l with
  | some rest => containsSub rest b
  | none => false

/-- Go strings.Split for a one-character separator. -/
def splitOnChar (sep : Char) : List Char → List (List Char)
  | [] => [[]]
  | c :: cs =>
    match splitOnChar sep cs with
    | [] => [[]]
    | h :: t => if c = sep then [] :: h :: t else (c :: h) :: t

/-- Go unicode.IsSpace restricted to the ASCII whitespace characters. -/
def goIsSpace (c : Char) : Bool :=
  c = ' ' || c = '\t' || c = '\n' || c = '\r' || c.toNat = 11 || c.toNat = 12

/-- Go strings.TrimSpace (ASCII fragment). -/
def trimSpaceL (l : List Char) : List Char :=
  ((l.dropWhile goIsSpace).reverse.dropWhile goIsSpace).reverse

/-- Helper for fieldsL: split at every whitespace character. -/
def splitBySpace : List Char → List (List Char)
  | [] => [[]]
  | c :: cs =>
    match splitBySpace cs with
    | [] => [[]]
    | h :: t => if goIsSpace c then [] :: h :: t else (c :: h) :: t

/-- Go strings.Fields: the maximal runs of non-whitespace characters. -/
def fieldsL (l : List Char) : List (List Char) :=
  (splitBySpace l).filter (fun w => w ≠ [])

/-- Go path/filepath Base on slash-separated paths: empty input yields ".",
an all-slash input yields "/", otherwise the last element after trailing
slashes are removed. -/
def baseL (l : List Char) : List Char :=
  if l = [] then ['.']
  else
    let l1 := (l.reverse.dropWhile (fun c => c = '/')).reverse
    if l1 = [] then ['/']
    else (l1.reverse.takeWhile (fun c => c ≠ '/')).reverse

/-- String wrapper for baseL, mirroring filepath.Base. -/
def base (s : String) : String := String.mk (baseL s.data)

/-- Helper for extL: walk the reversed path from the end; stop with no
extension at a slash, return the suffix from the last dot otherwise. -/
def extLAux : List Char → List Char → List Char
  | [], _ => []
  | c :: cs, acc =>
      if c = '/' then []
      else if c = '.' then '.' :: acc
      else extLAux cs (c :: acc)

/-- Go path/filepath Ext: the suffix beginning at the final dot in the final
slash-separated element, empty if there is no dot. -/
def extL (l : List Char) : List Char := extLAux l.reverse []

/-- String wrapper for extL, mirroring filepath.Ext. -/
def Ext (s : String) : String := String.mk (extL s.data)

/-- Keys of the algorithmExts map of utils/hash.go (every stored value is
true, so the map behaves as this key set). -/
def algorithmExts : List String :=
  [".sha256", ".sha512", ".sha1", ".crc32", ".md5", ".sha224", ".sha384",
   ".sha3-256", ".sha3-512", ".sha3-224", ".sha3-384", ".blake2s", ".blake2b"]

/-- ListSupportedAlgorithms of utils/hash.go. -/
def ListSupportedAlgorithms : List String :=
  ["blake2b", "blake2s", "crc32", "md5", "sha224", "sha384",
   "sha256", "sha1", "sha512", "sha3-224", "sha3-384",
   "sha3-256", "sha3-512"]

/-- GetHasher of utils/hash.go.  The concrete hash.Hash construction
(blake2b.New512 and its kin) is abstracted away: the embedding records which
algorithm the switch selected, keeping each case of the Go switch in order.
Failure returns the Go error message. -/
def GetHasher (algorithm : String) : Except String String :=
  if strToLower algorithm = "blake2b" then .ok "blake2b"
  else if strToLower algorithm = "blake2s" then .ok "blake2s"
  else if strToLower algorithm = "crc32" then .ok "crc32"
  else if strToLower algorithm = "md5" then .ok "md5"
  else if strToLower algorithm = "sha224" then .ok "sha224"
  else if strToLower algorithm = "sha384" then .ok "sha384"
  else if strToLower algorithm = "sha256" then .ok "sha256"
  else if strToLower algorithm = "sha1" then .ok "sha1"
  else if strToLower algorithm = "sha512" then .ok "sha512"
  else if strToLower algorithm = "sha3-224" then .ok "sha3-224"
  else if strToLower algorithm = "sha3-384" then .ok "sha3-384"
  else if strToLower algorithm = "sha3-256" then .ok "sha3-256"
  else if strToLower algorithm = "sha3-512" then .ok "sha3-512"
  else .error ("invalid or unsupported hash algorithm: " ++ algorithm)

/-- GetAlgorithmFromFilename of utils/hash.go: lower-case the file name, take
its extension, and when the extension is a known algorithm extension return
it with the leading dot stripped.  The Go (string, bool) pair is an Option. -/
def GetAlgorithmFromFilename (filename : String) : Option String :=
  if Ext (strToLower filename) ∈ algorithmExts then
    some (String.mk (trimPreL (Ext (strToLower filename)).data ['.']))
  else none

/-- Tail admitted after sum in the anchored sums alternatives: the regexp
optional s followed by optional literal .txt. -/
def optSumsTail (l : List Char) : Bool :=
  l = [] || l = ['s'] || l = ['.', 't', 'x', 't'] || l = ['s', '.', 't', 'x', 't']

/-- Recognizer for sum followed by optSumsTail. -/
def matchesSumTail : List Char → Bool
  | 's' :: 'u' :: 'm' :: rest => optSumsTail rest
  | _ => false

/-- Anchored alternative sha d* sums? (.txt)? of checksumFileRegex, on an
already lower-cased name.  The maximal run of digits after sha is exactly
what the regexp's digit star can consume, since s is not a digit. -/
def matchesShaSums : List Char → Bool
  | 's' :: 'h' :: 'a' :: rest => matchesSumTail (rest.dropWhile Char.isDigit)
  | _ => false

/-- Anchored alternative md5sums? (.txt)? of checksumFileRegex, on an
already lower-cased name. -/
def matchesMd5Sums : List Char → Bool
  | 'm' :: 'd' :: '5' :: rest => matchesSumTail rest
  | _ => false

/-- MatchString of checksumFileRegex of utils/hash.go.  The regexp is
case-insensitive, its first alternative is anchored on the whole name, and
its second alternative checksums? (.txt)? is unanchored, so an unanchored
match of it exists exactly when the lower-cased name contains the literal
checksum (the optional parts may match empty). -/
def checksumFileRegexMatch (s : String) : Bool :=
  matchesShaSums (strToLower s).data ||
  matchesMd5Sums (strToLower s).data ||
  (strToLower s).data = "checksums.txt".data ||
  containsSub (strToLower s).data "checksum".data

/-- IsChecksumFile of utils/hash.go: the manifest regexp on the base name, or
a known algorithm extension of the lower-cased path. -/
def IsChecksumFile (filePath : String) : Bool :=
  checksumFileRegexMatch (base filePath) ||
  algorithmExts.contains (Ext (strToLower filePath))

/-- Shapes of the patterns compiled by GetOSArch: sepPat a b is the regexp
(?i) .* a [-_/] b .* and bothPat a b is (?i) (.* a .* b .* | .* b .* a .*).
The OS and architecture tokens are regexp-literal (QuoteMeta is the identity
on them). -/
inductive OAPattern where
  | sepPat (a b : String)
  | bothPat (a b : String)
deriving DecidableEq

/-- Unanchored match of one compiled pattern against a file name; the
case-insensitive flag is realised by lower-casing the file name, the pattern
tokens being lower-case already. -/
def matchOAPattern (fileLower : List Char) : OAPattern → Bool
  | .sepPat a b =>
      ['-', '_', '/'].any (fun sep => containsSub fileLower (a.data ++ sep :: b.data))
  | .bothPat a b =>
      containsThen fileLower a.data b.data || containsThen fileLower b.data a.data

/-- Architecture synonym table of GetOSArch: the Go name first, then the
alternative names added by the switch. -/
def archPatterns (arch : String) : List String :=
  [arch] ++
    (if arch = "amd64" then ["x86_64"]
     else if arch = "386" then ["i386"]
     else if arch = "arm64" then ["aarch64"]
     else [])

/-- GetOSArch of the utils package: the pattern list compiled for a host OS
name and architecture (the package-level osArchRegexes after initialization). -/
def GetOSArch (osName arch : String) : List OAPattern :=
  ((archPatterns arch).map (fun ap =>
    [OAPattern.sepPat osName ap, OAPattern.sepPat ap osName,
     OAPattern.bothPat osName ap])).flatten

/-- MatchFile of the utils package: false on an empty (uninitialized) pattern
list, otherwise true when any compiled pattern matches. -/
def MatchFile (patterns : List OAPattern) (file : String) : Bool :=
  if patterns.length = 0 then false
  else patterns.any (matchOAPattern (strToLower file).data)

/-- Normalization applied by ParseChecksumFile to the file-name token of a
manifest line: strip a leading asterisk, then a leading dot-slash. -/
def normalizeManifestName (w : List Char) : List Char :=
  trimPreL (trimPreL w ['*']) ['.', '/']

/-- ParseChecksumFile of the utils package.  The manifest file's contents are
passed as its list of lines (the scanner's output); checksumFilePath is kept
only for the error message.  Blank lines, comment lines and lines with fewer
than two fields are skipped; the first field is the digest, the last field
(normalized) the file name; the first line whose name equals the target wins. -/
def ParseChecksumFile (lines : List String) (checksumFilePath targetFilename : String) :
    Except String String :=
  match lines with
  | [] =>
      .error ("checksum for target '" ++ targetFilename ++
        "' not found in checksum file '" ++ checksumFilePath ++ "'")
  | ln :: rest =>
      if trimSpaceL ln.data = [] || ['#'].isPrefixOf (trimSpaceL ln.data) then
        ParseChecksumFile rest checksumFilePath targetFilename
      else if (fieldsL (trimSpaceL ln.data)).length < 2 then
        ParseChecksumFile rest checksumFilePath targetFilename
      else if normalizeManifestName ((fieldsL (trimSpaceL ln.data)).getLastD []) =
          targetFilename.data then
        .ok (String.mk ((fieldsL (trimSpaceL ln.data)).headD []))
      else
        ParseChecksumFile rest checksumFilePath targetFilename

/-- Boolean success test on Except, mirroring the Go err == nil check. -/
def exceptIsOk {α β : Type} : Except α β → Bool
  | .ok _ => true
  | .error _ => false

/-- Result triple of VerifyChecksum of the utils package: the Go
(bool, string, error) return value. -/
structure VerifyChecksumResult where
  valid : Bool
  algo : String
  err : Option String
deriving DecidableEq

/-- Body of VerifyChecksum after determinedAlgorithm has been fixed: check
the algorithm is supported, look the target up in the manifest, hash the
local file, and compare digests with strings.EqualFold (case-insensitive
equality, embedded as equality after ToLower). -/
def verifyChecksumWith (hashFile : String → String → Except String String)
    (checksumLines : List String)
    (assetPathOnDisk assetNameInChecksumFile checksumFilePath determinedAlgorithm : String) :
    VerifyChecksumResult :=
  match GetHasher determinedAlgorithm with
  | .error e =>
      ⟨false, determinedAlgorithm,
        some ("determined algorithm '" ++ determinedAlgorithm ++ "' is not supported: " ++ e)⟩
  | .ok _ =>
      match ParseChecksumFile checksumLines checksumFilePath assetNameInChecksumFile with
      | .error e =>
          ⟨false, determinedAlgorithm,
            some ("failed to parse checksum file '" ++ checksumFilePath ++ "' for target '" ++
              assetNameInChecksumFile ++ "': " ++ e)⟩
      | .ok expectedChecksum =>
          match hashFile assetPathOnDisk determinedAlgorithm with
          | .error e =>
              ⟨false, determinedAlgorithm,
                some ("failed to calculate actual checksum for asset '" ++ assetPathOnDisk ++
                  "' using " ++ determinedAlgorithm ++ ": " ++ e)⟩
          | .ok actualChecksum =>
              if strToLower expectedChecksum = strToLower actualChecksum then
                ⟨true, determinedAlgorithm, none⟩
              else
                ⟨false, determinedAlgorithm,
                  some ("checksum mismatch for asset '" ++ assetPathOnDisk ++
                    "' (original name '" ++ assetNameInChecksumFile ++ "'): expected '" ++
                    expectedChecksum ++ "', got '" ++ actualChecksum ++ "'")⟩

/-- VerifyChecksum of the utils package.  hashFile abstracts utils.HashFile
(path and algorithm to hex digest or error); checksumLines is the content of
the checksum file at checksumFilePath.  The algorithm is taken from the
checksum file name when a known extension is found, otherwise from
defaultAlgoForGeneric, an empty default being an error. -/
def VerifyChecksum (hashFile : String → String → Except String String)
    (checksumLines : List String)
    (assetPathOnDisk assetNameInChecksumFile checksumFilePath defaultAlgoForGeneric : String) :
    VerifyChecksumResult :=
  match GetAlgorithmFromFilename checksumFilePath with
  | some algoFromExt =>
      verifyChecksumWith hashFile checksumLines assetPathOnDisk assetNameInChecksumFile
        checksumFilePath algoFromExt
  | none =>
      if defaultAlgoForGeneric = "" then
        ⟨false, "", some ("checksum algorithm not found in checksum file name '" ++
          checksumFilePath ++ "' and no default algorithm provided for generic checksum files")⟩
      else
        verifyChecksumWith hashFile checksumLines assetPathOnDisk assetNameInChecksumFile
          checksumFilePath defaultAlgoForGeneric

/-- Substring test on strings (used to state that an error message names a
path or target). -/
def containsSubStr (s sub : String) : Bool := containsSub s.data sub.data

/-- View of a github.ReleaseAsset as consumed by the selector: the Name and
ID pointers, which may be absent. -/
structure ReleaseAsset where
  name : Option String
  id : Option Nat
deriving DecidableEq

/-- Outcome of the selection scan of findDownloadAndVerifyAsset: the chosen
main asset name and checksum asset name, when found. -/
structure SelectionResult where
  mainAsset : Option String
  checksumAsset : Option String
deriving DecidableEq

/-- Selection loop of findDownloadAndVerifyAsset (cmd/root.go): a single pass
keeping the first checksum-named asset and the first OS/architecture match,
skipping assets with a missing name or ID.  The two accumulators are the
mainAssetToDownload and checksumAssetToDownload variables. -/
def scanAssets (patterns : List OAPattern) :
    List ReleaseAsset → Option String → Option String → SelectionResult
  | [], m, c => ⟨m, c⟩
  | a :: rest, m, c =>
    match a.name, a.id with
    | some assetName, some _ =>
        if IsChecksumFile assetName then
          scanAssets patterns rest m
            (match c with | none => some assetName | some x => some x)
        else if MatchFile patterns assetName then
          scanAssets patterns rest
            (match m with | none => some assetName | some x => some x) c
        else
          scanAssets patterns rest m c
    | _, _ => scanAssets patterns rest m c

/-- Selection phase of findDownloadAndVerifyAsset: scan all assets and fail
when no main asset matched the current OS and architecture. -/
def findDownloadAndVerifyAssetSelection (patterns : List OAPattern)
    (assets : List ReleaseAsset) : Except String SelectionResult :=
  match scanAssets patterns assets none none with
  | ⟨none, _⟩ => .error "no suitable asset found for download"
  | ⟨some m, c⟩ => .ok ⟨some m, c⟩

/-- Specification-style reading of the selection policy: the first asset in
list order that is valid, not checksum-named, and platform-matching. -/
def firstMainCandidate (patterns : List OAPattern) (assets : List ReleaseAsset) :
    Option String :=
  assets.findSome? (fun a =>
    match a.name, a.id with
    | some n, some _ =>
        if IsChecksumFile n then none
        else if MatchFile patterns n then some n else none
    | _, _ => none)

/-- Specification-style reading of the checksum choice: the first valid
checksum-named asset in list order. -/
def firstChecksumCandidate (assets : List ReleaseAsset) : Option String :=
  assets.findSome? (fun a =>
    match a.name, a.id with
    | some n, some _ => if IsChecksumFile n then some n else none
    | _, _ => none)

/-- Filesystem-visible outcome of verifyAssetChecksum (cmd/root.go): the
returned error, and whether the main asset file and the checksum file were
removed (os.Remove calls; removal is modelled as effective). -/
structure VerifyFsOutcome where
  err : Option String
  mainRemoved : Bool
  checksumRemoved : Bool
deriving DecidableEq

/-- verifyAssetChecksum of cmd/root.go.  hashMainResult abstracts the
utils.HashFile call on the downloaded main asset; checksumLines is the
content of the checksum file.  On a manifest parse failure BOTH files are
removed; on a hash failure both are removed; on a digest mismatch both are
removed; on success only the checksum file is removed. -/
def verifyAssetChecksum (hashMainResult : Except String String)
    (checksumLines : List String)
    (mainAssetPath mainAssetName checksumAssetPath : String) : VerifyFsOutcome :=
  match ParseChecksumFile checksumLines checksumAssetPath mainAssetName with
  | .error _ =>
      { err := some ("checksum verification failed: could not find entry for '" ++
          mainAssetName ++ "' in the checksum file")
        mainRemoved := true, checksumRemoved := true }
  | .ok expectedChecksum =>
      match hashMainResult with
      | .error _ =>
          { err := some ("checksum verification failed: could not hash downloaded file '" ++
              mainAssetPath ++ "'")
            mainRemoved := true, checksumRemoved := true }
      | .ok actualChecksum =>
          if strToLower expectedChecksum = strToLower actualChecksum then
            { err := none, mainRemoved := false, checksumRemoved := true }
          else
            { err := some "checksum mismatch - downloaded file is corrupt or incorrect"
              mainRemoved := true, checksumRemoved := true }

/-- Abstract I/O outcomes met by saveAssetToFile: whether os.Create succeeds,
and the errors (if any) of the io.Copy and the file Close. -/
structure SaveInput where
  createOk : Bool
  copyErr : Option String
  closeErr : Option String
deriving DecidableEq

/-- Outcome of saveAssetToFile: the returned error and whether the
destination file exists on disk after the call returns. -/
structure SaveOutcome where
  err : Option String
  fileOnDisk : Bool
deriving DecidableEq

/-- saveAssetToFile of cmd/root.go.  Create failure returns immediately with
no file; a copy error removes the partially written file and fails; a close
error after a successful copy is only logged and the call succeeds. -/
def saveAssetToFile (inp : SaveInput) (localPath displayName : String) : SaveOutcome :=
  if inp.createOk = false then
    { err := some ("error creating file '" ++ localPath ++ "'"), fileOnDisk := false }
  else
    match inp.copyErr with
    | some e =>
        { err := some ("error saving data for '" ++ displayName ++ "': " ++ e)
          fileOnDisk := false }
    | none => { err := none, fileOnDisk := true }

/-- ParsedArgs of the utils package. -/
structure ParsedArgs where
  owner : String
  repo : String
  version : String
deriving DecidableEq

/-- Defensive re-validation at the end of ParseArgs: owner and repo must not
contain a slash or an at sign. -/
def validateOwnerRepo (owner repo version : String) : Except String ParsedArgs :=
  if owner.data.contains '/' || owner.data.contains '@' then
    .error ("invalid characters in owner '" ++ owner ++ "'")
  else if repo.data.contains '/' || repo.data.contains '@' then
    .error ("invalid characters in repo '" ++ repo ++ "'")
  else
    .ok ⟨owner, repo, version⟩

/-- ParseArgs of the utils package: parse owner/repo with an optional
at-version suffix, defaulting the version to latest. -/
def ParseArgs (argString : String) : Except String ParsedArgs :=
  if argString.data.contains '@' then
    if (splitOnChar '@' argString.data).length ≠ 2 then
      .error ("invalid argument format '" ++ argString ++ "': expected owner/repo[@version]")
    else if (splitOnChar '@' argString.data).getLastD [] = [] then
      .error ("invalid argument format '" ++ argString ++ "': missing version after '@'")
    else
      match splitOnChar '/' ((splitOnChar '@' argString.data).headD []) with
      | [o, r] =>
          if o = [] || r = [] then
            .error ("invalid owner/repo format '" ++
              String.mk ((splitOnChar '@' argString.data).headD []) ++
              "' before '@': expected owner/repo")
          else
            validateOwnerRepo (String.mk o) (String.mk r)
              (String.mk ((splitOnChar '@' argString.data).getLastD []))
      | _ =>
          .error ("invalid owner/repo format '" ++
            String.mk ((splitOnChar '@' argString.data).headD []) ++
            "' before '@': expected owner/repo")
  else
    match splitOnChar '/' argString.data with
    | [o, r] =>
        if o = [] || r = [] then
          .error ("invalid owner/repo format '" ++ argString ++
            "': expected owner/repo or owner/repo@version")
        else
          validateOwnerRepo (String.mk o) (String.mk r) "latest"
    | _ =>
        .error ("invalid owner/repo format '" ++ argString ++
          "': expected owner/repo or owner/repo@version")

/-! Helper lemmas about the string primitives. -/

theorem containsSub_infix_iff {l sub : List Char} :
    containsSub l sub = true ↔ sub <:+: l := by
  induction l with
  | nil =>
    cases sub with
    | nil => simp [containsSub]
    | cons s ss => simp [containsSub]
  | cons c cs ih =>
    cases sub with
    | nil => simp [containsSub]
    | cons s ss =>
      simp only [containsSub, Bool.or_eq_true, List.infix_cons_iff, ih,
        List.isPrefixOf_iff_prefix]

theorem splitOnChar_ne_nil (sep : Char) (l : List Char) : splitOnChar sep l ≠ [] := by
  cases l with
  | nil => simp [splitOnChar]
  | cons c cs =>
    simp only [splitOnChar]
    rcases h : splitOnChar sep cs with _ | ⟨h', t⟩
    · simp
    · by_cases hc : c = sep <;> simp [hc]

theorem splitOnChar_of_not_mem {sep : Char} {l : List Char} (h : sep ∉ l) :
    splitOnChar sep l = [l] := by
  induction l with
  | nil => rfl
  | cons c cs ih =>
    have hc : ¬(c = sep) := fun hh => h (hh ▸ List.mem_cons_self c cs)
    have hcs : sep ∉ cs := fun hh => h (List.mem_cons_of_mem c hh)
    simp only [splitOnChar, ih hcs]
    rw [if_neg hc]

theorem splitOnChar_append {sep : Char} {a : List Char} (b : List Char) (h : sep ∉ a) :
    splitOnChar sep (a ++ sep :: b) = a :: splitOnChar sep b := by
  induction a with
  | nil =>
    simp only [List.nil_append, splitOnChar]
    rcases hb : splitOnChar sep b with _ | ⟨h', t⟩
    · exact absurd hb (splitOnChar_ne_nil sep b)
    · simp
  | cons c cs ih =>
    have hc : ¬(c = sep) := fun hh => h (hh ▸ List.mem_cons_self c cs)
    have hcs : sep ∉ cs := fun hh => h (List.mem_cons_of_mem c hh)
    rw [List.cons_append]
    simp only [splitOnChar]
    rw [ih hcs]
    simp [hc]

theorem length_splitOnChar (sep : Char) (l : List Char) :
    (splitOnChar sep l).length = l.count sep + 1 := by
  induction l with
  | nil => rfl
  | cons c cs ih =>
    simp only [splitOnChar]
    rcases h : splitOnChar sep cs with _ | ⟨h', t⟩
    · exact absurd h (splitOnChar_ne_nil sep cs)
    · rw [h] at ih
      by_cases hc : c = sep
      · subst hc
        simp only [List.length_cons] at ih ⊢
        simp [List.count_cons, ih]
      · simp only [List.length_cons] at ih ⊢
        have hsc : ¬(sep = c) := fun hh => hc hh.symm
        simp [hc, List.count_cons, hsc, ih]

def keepFirst (m d : Option String) : Option String :=
  match m with
  | some x => some x
  | none => d

theorem scanAssets_eq (patterns : List OAPattern) (assets : List ReleaseAsset) :
    ∀ m c, scanAssets patterns assets m c =
      ⟨keepFirst m (firstMainCandidate patterns assets),
       keepFirst c (firstChecksumCandidate assets)⟩ := by
  induction assets with
  | nil =>
    intro m c
    simp only [scanAssets, firstMainCandidate, firstChecksumCandidate, List.findSome?_nil]
    cases m <;> cases c <;> rfl
  | cons a rest ih =>
    intro m c
    rcases hn : a.name with _ | n
    · rw [show scanAssets patterns (a :: rest) m c = scanAssets patterns rest m c by
        simp [scanAssets, hn]]
      rw [ih]
      simp [firstMainCandidate, firstChecksumCandidate, List.findSome?_cons, hn]
    · rcases hi : a.id with _ | i
      · rw [show scanAssets patterns (a :: rest) m c = scanAssets patterns rest m c by
          simp [scanAssets, hn, hi]]
        rw [ih]
        simp [firstMainCandidate, firstChecksumCandidate, List.findSome?_cons, hn, hi]
      · cases hck : IsChecksumFile n
        · cases hm : MatchFile patterns n
          · rw [show scanAssets patterns (a :: rest) m c = scanAssets patterns rest m c by
              simp [scanAssets, hn, hi, hck, hm]]
            rw [ih]
            simp [firstMainCandidate, firstChecksumCandidate, List.findSome?_cons, hn, hi,
              hck, hm]
          · rw [show scanAssets patterns (a :: rest) m c =
                scanAssets patterns rest
                  (match m with | none => some n | some x => some x) c by
              simp [scanAssets, hn, hi, hck, hm]]
            rw [ih]
            simp only [firstMainCandidate, firstChecksumCandidate, List.findSome?_cons, hn, hi,
              hck, hm]
            cases m <;> cases c <;> simp [keepFirst]
        · rw [show scanAssets patterns (a :: rest) m c =
              scanAssets patterns rest m
                (match c with | none => some n | some x => some x) by
            simp [scanAssets, hn, hi, hck]]
          rw [ih]
          simp only [firstMainCandidate, firstChecksumCandidate, List.findSome?_cons, hn, hi,
            hck]
          cases m <;> cases c <;> simp [keepFirst]

theorem firstMainCandidate_not_checksum (patterns : List OAPattern) :
    ∀ (assets : List ReleaseAsset) (n : String),
      firstMainCandidate patterns assets = some n → IsChecksumFile n = false := by
  intro assets
  induction assets with
  | nil => intro n h; simp [firstMainCandidate] at h
  | cons a rest ih =>
    intro n h
    simp only [firstMainCandidate, List.findSome?_cons] at h
    rcases hn : a.name with _ | nm <;> rw [hn] at h
    · exact ih n (by simpa [firstMainCandidate] using h)
    · rcases hi : a.id with _ | i <;> rw [hi] at h
      · exact ih n (by simpa [firstMainCandidate] using h)
      · cases hck : IsChecksumFile nm
        · cases hm : MatchFile patterns nm
          · simp only [hck, hm] at h
            exact ih n (by simpa [firstMainCandidate] using h)
          · simp only [hck, hm] at h
            simp at h
            subst h
            exact hck
        · simp only [hck] at h
          simp at h
          exact ih n (by simpa [firstMainCandidate] using h)

theorem checksum_substring_regex_match (s : String)
    (h : containsSub (strToLower s).data "checksum".data = true) :
    checksumFileRegexMatch s = true := by
  unfold checksumFileRegexMatch
  rw [h]
  simp

theorem parseChecksumFile_error_names (lines : List String) (cp target : String) :
    ∀ e, ParseChecksumFile lines cp target = .error e →
      containsSub e.data target.data = true ∧ containsSub e.data cp.data = true := by
  induction lines with
  | nil =>
    intro e h
    simp only [ParseChecksumFile, Except.error.injEq] at h
    subst h
    constructor
    · rw [containsSub_infix_iff]
      simp only [String.data_append]
      exact ⟨"checksum for target '".data,
        "' not found in checksum file '".data ++ cp.data ++ "'".data, by simp⟩
    · rw [containsSub_infix_iff]
      simp only [String.data_append]
      exact ⟨"checksum for target '".data ++ target.data ++
        "' not found in checksum file '".data, "'".data, by simp⟩
  | cons ln rest ih =>
    intro e h
    simp only [ParseChecksumFile] at h
    split at h
    · exact ih e h
    · split at h
      · exact ih e h
      · split at h
        · exact absurd h (by simp)
        · exact ih e h

theorem verifyChecksumWith_algo (hashFile : String → String → Except String String)
    (checksumLines : List String) (p n cp algo : String) :
    (verifyChecksumWith hashFile checksumLines p n cp algo).algo = algo := by
  unfold verifyChecksumWith
  rcases GetHasher algo with e | hk
  · rfl
  · rcases ParseChecksumFile checksumLines cp n with e | expected
    · rfl
    · rcases hashFile p algo with e | actual
      · rfl
      · by_cases hc : strToLower expected = strToLower actual <;> simp [hc]

/-! Claim theorems. -/

/-- C1 counterexample: the claim says a non-empty caller-supplied algorithm
is used directly, before looking at the checksum file's name.  With checksum
file checksums.md5 and caller-supplied algorithm sha1, VerifyChecksum
resolves md5 (from the extension), not sha1. -/
theorem C1_counterexample :
    (VerifyChecksum (fun _ _ => Except.ok "aa") ["aa  tool.bin"]
        "tool.bin" "tool.bin" "checksums.md5" "sha1").algo = "md5" ∧
    ("md5" : String) ≠ "sha1" := by
  decide

/-- C1 amended: VerifyChecksum resolves the algorithm with the checksum
file's algorithm-suffix extension taking precedence; the caller-supplied
algorithm is only a fallback used when no known extension is present, and an
empty fallback with no extension is an error (not a silent sha256). -/
theorem C1_algorithm_resolution (hashFile : String → String → Except String String)
    (lines : List String) (p n cp d : String) :
    (∀ a, GetAlgorithmFromFilename cp = some a →
      (VerifyChecksum hashFile lines p n cp d).algo = a) ∧
    (GetAlgorithmFromFilename cp = none → d ≠ "" →
      (VerifyChecksum hashFile lines p n cp d).algo = d) ∧
    (GetAlgorithmFromFilename cp = none → d = "" →
      (VerifyChecksum hashFile lines p n cp d).err.isSome = true ∧
      (VerifyChecksum hashFile lines p n cp d).valid = false) := by
  refine ⟨?_, ?_, ?_⟩
  · intro a ha
    unfold VerifyChecksum
    rw [ha]
    exact verifyChecksumWith_algo hashFile lines p n cp a
  · intro ha hd
    unfold VerifyChecksum
    rw [ha, if_neg hd]
    exact verifyChecksumWith_algo hashFile lines p n cp d
  · intro ha hd
    unfold VerifyChecksum
    rw [ha, if_pos hd]
    exact ⟨rfl, rfl⟩

/-- C1 witness: the amended resolution evaluated at concrete inputs, one per
precedence level. -/
theorem C1_algorithm_resolution_witness :
    (VerifyChecksum (fun _ _ => Except.ok "aa") ["aa  t.bin"]
        "t.bin" "t.bin" "sums.sha512" "sha256").algo = "sha512" ∧
    (VerifyChecksum (fun _ _ => Except.ok "aa") ["aa  t.bin"]
        "t.bin" "t.bin" "checksums.txt" "sha256").algo = "sha256" ∧
    (VerifyChecksum (fun _ _ => Except.ok "aa") ["aa  t.bin"]
        "t.bin" "t.bin" "checksums.txt" "").err.isSome = true :=
  ⟨(C1_algorithm_resolution (fun _ _ => Except.ok "aa") ["aa  t.bin"]
      "t.bin" "t.bin" "sums.sha512" "sha256").1 "sha512" (by decide),
   (C1_algorithm_resolution (fun _ _ => Except.ok "aa") ["aa  t.bin"]
      "t.bin" "t.bin" "checksums.txt" "sha256").2.1 (by decide) (by decide),
   ((C1_algorithm_resolution (fun _ _ => Except.ok "aa") ["aa  t.bin"]
      "t.bin" "t.bin" "checksums.txt" "").2.2 (by decide) rfl).1⟩

/-- C2 counterexample: with a manifest listing only an unrelated entry,
verifyAssetChecksum fails with an entry-not-found error AND removes the
downloaded main asset file, contradicting the claim that the main asset is
not deleted on this failure path. -/
theorem C2_counterexample :
    (verifyAssetChecksum (Except.ok "aaaa") ["1111111111  other_file.zip"]
        "tool_linux_amd64" "tool_linux_amd64" "checksums.txt").err.isSome = true ∧
    (verifyAssetChecksum (Except.ok "aaaa") ["1111111111  other_file.zip"]
        "tool_linux_amd64" "tool_linux_amd64" "checksums.txt").mainRemoved = true := by
  decide

/-- C2 amended: whenever the manifest has no entry for the main asset's
original name, verifyAssetChecksum fails and removes BOTH the downloaded
main asset file and the checksum file. -/
theorem C2_entry_not_found_removes_files (hashMain : Except String String)
    (lines : List String) (p n cp : String)
    (h : exceptIsOk (ParseChecksumFile lines cp n) = false) :
    (verifyAssetChecksum hashMain lines p n cp).err.isSome = true ∧
    (verifyAssetChecksum hashMain lines p n cp).mainRemoved = true ∧
    (verifyAssetChecksum hashMain lines p n cp).checksumRemoved = true := by
  unfold verifyAssetChecksum
  rcases hp : ParseChecksumFile lines cp n with e | v
  · simp [hp]
  · rw [hp] at h
    simp [exceptIsOk] at h

/-- C2 witness: the amended behavior evaluated on a concrete manifest with
only an unrelated entry. -/
theorem C2_entry_not_found_removes_files_witness :
    (verifyAssetChecksum (Except.ok "aa") ["11  other.zip"]
        "m.bin" "t.bin" "c.txt").mainRemoved = true :=
  (C2_entry_not_found_removes_files (Except.ok "aa") ["11  other.zip"]
    "m.bin" "t.bin" "c.txt" (by decide)).2.1

/-- C3 counterexample: two assets match linux/amd64; the second carries the
deb package extension, yet the selector keeps the first (non-package) one,
so no package-family preference is applied. -/
theorem C3_counterexample :
    (scanAssets (GetOSArch "linux" "amd64")
      [⟨some "tool_1.0.0_linux-amd64.tar.gz", some 1⟩,
       ⟨some "tool_1.0.0_linux-amd64.deb", some 2⟩] none none).mainAsset =
      some "tool_1.0.0_linux-amd64.tar.gz" ∧
    some "tool_1.0.0_linux-amd64.tar.gz" ≠ some "tool_1.0.0_linux-amd64.deb" := by
  decide

/-- C3 amended: the selector keeps the FIRST platform-matching candidate and
the FIRST checksum-named candidate in list order, ignoring later ones, with
no package-family-extension preference; it errors only when no candidate
matched at all, never because several matched. -/
theorem C3_first_match_selection (patterns : List OAPattern) (assets : List ReleaseAsset) :
    scanAssets patterns assets none none =
      ⟨firstMainCandidate patterns assets, firstChecksumCandidate assets⟩ ∧
    ((∃ e, findDownloadAndVerifyAssetSelection patterns assets = .error e) ↔
      firstMainCandidate patterns assets = none) := by
  have h := scanAssets_eq patterns assets none none
  constructor
  · simpa [keepFirst] using h
  · unfold findDownloadAndVerifyAssetSelection
    rw [h]
    rcases hm : firstMainCandidate patterns assets with _ | x <;> simp [keepFirst, hm]

/-- C4: ParseChecksumFile skips blank, comment and under-two-token lines,
returns the first token of the first line whose last token (after stripping
a leading asterisk and dot-slash) equals the target, skips non-matching
well-formed lines, and on a miss errors with a message naming both the
target and the manifest path. -/
theorem C4_parse_checksum_file (lines : List String) (ln cp target : String) :
    ((trimSpaceL ln.data = [] ∨ ['#'].isPrefixOf (trimSpaceL ln.data) = true ∨
        (fieldsL (trimSpaceL ln.data)).length < 2) →
      ParseChecksumFile (ln :: lines) cp target = ParseChecksumFile lines cp target) ∧
    (['#'].isPrefixOf (trimSpaceL ln.data) = false →
      2 ≤ (fieldsL (trimSpaceL ln.data)).length →
      normalizeManifestName ((fieldsL (trimSpaceL ln.data)).getLastD []) = target.data →
      ParseChecksumFile (ln :: lines) cp target =
        .ok (String.mk ((fieldsL (trimSpaceL ln.data)).headD []))) ∧
    (['#'].isPrefixOf (trimSpaceL ln.data) = false →
      2 ≤ (fieldsL (trimSpaceL ln.data)).length →
      normalizeManifestName ((fieldsL (trimSpaceL ln.data)).getLastD []) ≠ target.data →
      ParseChecksumFile (ln :: lines) cp target = ParseChecksumFile lines cp target) ∧
    (∀ e, ParseChecksumFile lines cp target = .error e →
      containsSub e.data target.data = true ∧ containsSub e.data cp.data = true) := by
  have hne : trimSpaceL ln.data = [] → (fieldsL (trimSpaceL ln.data)).length = 0 := by
    intro hh
    rw [hh]
    rfl
  refine ⟨?_, ?_, ?_, parseChecksumFile_error_names lines cp target⟩
  · intro h
    simp only [ParseChecksumFile]
    rcases h with h | h | h
    · simp [h]
    · simp [h]
    · by_cases h1 : trimSpaceL ln.data = [] ∨ ['#'].isPrefixOf (trimSpaceL ln.data) = true
      · rcases h1 with h1 | h1 <;> simp [h1]
      · push_neg at h1
        simp [h1.1, h1.2, h]
  · intro h1 h2 h3
    have ht : ¬(trimSpaceL ln.data = []) := fun hh => by
      rw [hne hh] at h2
      omega
    rw [List.getLastD_eq_getLast?] at h3
    simp only [ParseChecksumFile]
    simp [ht, h1, h3, Nat.not_lt.mpr h2]
  · intro h1 h2 h3
    have ht : ¬(trimSpaceL ln.data = []) := fun hh => by
      rw [hne hh] at h2
      omega
    rw [List.getLastD_eq_getLast?] at h3
    simp only [ParseChecksumFile]
    simp [ht, h1, h3, Nat.not_lt.mpr h2]

/-- C4 witness: line skipping, a binary-mode dot-slash match, and the
not-found error message evaluated on concrete manifests. -/
theorem C4_parse_checksum_file_witness :
    ParseChecksumFile ["# comment", "aa  bb"] "c.txt" "zz" =
      ParseChecksumFile ["aa  bb"] "c.txt" "zz" ∧
    ParseChecksumFile ["1111 *./tool.bin", "x"] "c.txt" "tool.bin" = Except.ok "1111" ∧
    containsSub "checksum for target 'zz' not found in checksum file 'c.txt'".data
        "zz".data = true ∧
    containsSub "checksum for target 'zz' not found in checksum file 'c.txt'".data
        "c.txt".data = true :=
  ⟨(C4_parse_checksum_file ["aa  bb"] "# comment" "c.txt" "zz").1
      (Or.inr (Or.inl (by decide))),
   (C4_parse_checksum_file ["x"] "1111 *./tool.bin" "c.txt" "tool.bin").2.1
      (by decide) (by decide) (by decide),
   (C4_parse_checksum_file [] "ln" "c.txt" "zz").2.2.2
      "checksum for target 'zz' not found in checksum file 'c.txt'" rfl⟩

/-- C6: with the matcher initialized for host OS linux and architecture
amd64, tool_v1.2.3_linux-amd64 matches, tool_v1.2.3_windows-amd64 does not,
tool_v1.2.3_linux-x86_64 matches (x86_64 is a synonym of amd64), and
tool_v1.2.3_linux-i386 does not (i386 is not a synonym of amd64). -/
theorem C6_platform_matching :
    MatchFile (GetOSArch "linux" "amd64") "tool_v1.2.3_linux-amd64" = true ∧
    MatchFile (GetOSArch "linux" "amd64") "tool_v1.2.3_windows-amd64" = false ∧
    MatchFile (GetOSArch "linux" "amd64") "tool_v1.2.3_linux-x86_64" = true ∧
    MatchFile (GetOSArch "linux" "amd64") "tool_v1.2.3_linux-i386" = false := by
  decide

/-- C7: GetHasher succeeds exactly when the lower-cased name is one of the
thirteen supported algorithm names; every other name yields the
unsupported-algorithm error (the failure side of the equivalence). -/
theorem C7_gethasher_supported (name : String) :
    exceptIsOk (GetHasher name) = true ↔ strToLower name ∈ ListSupportedAlgorithms := by
  unfold GetHasher
  by_cases h1 : strToLower name = "blake2b"
  · rw [if_pos h1, h1]; exact ⟨fun _ => by decide, fun _ => rfl⟩
  rw [if_neg h1]
  by_cases h2 : strToLower name = "blake2s"
  · rw [if_pos h2, h2]; exact ⟨fun _ => by decide, fun _ => rfl⟩
  rw [if_neg h2]
  by_cases h3 : strToLower name = "crc32"
  · rw [if_pos h3, h3]; exact ⟨fun _ => by decide, fun _ => rfl⟩
  rw [if_neg h3]
  by_cases h4 : strToLower name = "md5"
  · rw [if_pos h4, h4]; exact ⟨fun _ => by decide, fun _ => rfl⟩
  rw [if_neg h4]
  by_cases h5 : strToLower name = "sha224"
  · rw [if_pos h5, h5]; exact ⟨fun _ => by decide, fun _ => rfl⟩
  rw [if_neg h5]
  by_cases h6 : strToLower name = "sha384"
  · rw [if_pos h6, h6]; exact ⟨fun _ => by decide, fun _ => rfl⟩
  rw [if_neg h6]
  by_cases h7 : strToLower name = "sha256"
  · rw [if_pos h7, h7]; exact ⟨fun _ => by decide, fun _ => rfl⟩
  rw [if_neg h7]
  by_cases h8 : strToLower name = "sha1"
  · rw [if_pos h8, h8]; exact ⟨fun _ => by decide, fun _ => rfl⟩
  rw [if_neg h8]
  by_cases h9 : strToLower name = "sha512"
  · rw [if_pos h9, h9]; exact ⟨fun _ => by decide, fun _ => rfl⟩
  rw [if_neg h9]
  by_cases h10 : strToLower name = "sha3-224"
  · rw [if_pos h10, h10]; exact ⟨fun _ => by decide, fun _ => rfl⟩
  rw [if_neg h10]
  by_cases h11 : strToLower name = "sha3-384"
  · rw [if_pos h11, h11]; exact ⟨fun _ => by decide, fun _ => rfl⟩
  rw [if_neg h11]
  by_cases h12 : strToLower name = "sha3-256"
  · rw [if_pos h12, h12]; exact ⟨fun _ => by decide, fun _ => rfl⟩
  rw [if_neg h12]
  by_cases h13 : strToLower name = "sha3-512"
  · rw [if_pos h13, h13]; exact ⟨fun _ => by decide, fun _ => rfl⟩
  rw [if_neg h13]
  constructor
  · intro hc
    simp only [exceptIsOk] at hc
    exact absurd hc (by decide)
  · intro hmem
    exfalso
    simp only [ListSupportedAlgorithms, List.mem_cons, List.not_mem_nil, or_false] at hmem
    rcases hmem with h|h|h|h|h|h|h|h|h|h|h|h|h <;> exact absurd h (by assumption)

/-- C8: saveAssetToFile errs exactly when creation or the byte copy fails;
a copy error leaves no destination file behind, and a close error after a
clean copy does not fail the call. -/
theorem C8_save_asset_to_file (inp : SaveInput) (localPath displayName : String) :
    ((saveAssetToFile inp localPath displayName).err.isSome = true ↔
      (inp.createOk = false ∨ inp.copyErr.isSome = true)) ∧
    (inp.createOk = true → inp.copyErr.isSome = true →
      (saveAssetToFile inp localPath displayName).fileOnDisk = false) ∧
    (inp.createOk = true → inp.copyErr = none →
      (saveAssetToFile inp localPath displayName).err = none) := by
  rcases inp with ⟨ck, ce, cl⟩
  cases ck <;> rcases ce with _ | e <;> simp [saveAssetToFile]

/-- C8 witness: the copy-error cleanup and the non-fatal close error
evaluated at concrete inputs. -/
theorem C8_save_asset_to_file_witness :
    (saveAssetToFile ⟨true, some "boom", none⟩ "f.bin" "tool").fileOnDisk = false ∧
    (saveAssetToFile ⟨true, none, some "close failure"⟩ "f.bin" "tool").err = none :=
  ⟨(C8_save_asset_to_file ⟨true, some "boom", none⟩ "f.bin" "tool").2.1 rfl rfl,
   (C8_save_asset_to_file ⟨true, none, some "close failure"⟩ "f.bin" "tool").2.2 rfl rfl⟩

/-- C9: whenever GetAlgorithmFromFilename recognizes an extension, the
returned algorithm name is lower-case and accepted by GetHasher. -/
theorem C9_extension_algorithms_supported (f a : String)
    (h : GetAlgorithmFromFilename f = some a) :
    exceptIsOk (GetHasher a) = true ∧ strToLower a = a := by
  unfold GetAlgorithmFromFilename at h
  split at h
  case isTrue hmem =>
    simp only [Option.some.injEq] at h
    subst h
    simp only [algorithmExts, List.mem_cons, List.not_mem_nil, or_false] at hmem
    rcases hmem with h|h|h|h|h|h|h|h|h|h|h|h|h <;> rw [h] <;> decide
  case isFalse => exact absurd h (by simp)

/-- C9 witness: the invariant evaluated on a concrete sha256-suffixed
manifest name. -/
theorem C9_extension_algorithms_supported_witness :
    exceptIsOk (GetHasher "sha256") = true ∧ strToLower "sha256" = "sha256" :=
  C9_extension_algorithms_supported "archive.tar.gz.sha256" "sha256" (by decide)

/-- C10: a base name containing checksum (case-insensitively) always
classifies as a checksum file (the regexp's second alternative is
unanchored), and the selection loop can therefore never pick such a name as
the main asset. -/
theorem C10_checksum_named_never_main :
    (∀ f : String, containsSub (strToLower (base f)).data "checksum".data = true →
      IsChecksumFile f = true) ∧
    (∀ (patterns : List OAPattern) (assets : List ReleaseAsset) (n : String),
      (scanAssets patterns assets none none).mainAsset = some n →
      containsSub (strToLower (base n)).data "checksum".data = false) := by
  constructor
  · intro f h
    unfold IsChecksumFile
    rw [checksum_substring_regex_match (base f) h]
    rfl
  · intro patterns assets n h
    rw [scanAssets_eq patterns assets none none] at h
    simp only [keepFirst] at h
    have h2 := firstMainCandidate_not_checksum patterns assets n h
    cases hcon : containsSub (strToLower (base n)).data "checksum".data
    · rfl
    · have h3 : IsChecksumFile n = true := by
        unfold IsChecksumFile
        rw [checksum_substring_regex_match (base n) hcon]
        rfl
      rw [h3] at h2
      cases h2

/-- C10 witness: both halves evaluated on concrete names; a checksum-bearing
name classifies as a checksum file, and a platform-matching binary selected
as main has no checksum in its base name. -/
theorem C10_checksum_named_never_main_witness :
    IsChecksumFile "my_Checksums_linux_amd64" = true ∧
    containsSub (strToLower (base "tool_linux_amd64")).data "checksum".data = false :=
  ⟨C10_checksum_named_never_main.1 "my_Checksums_linux_amd64" (by decide),
   C10_checksum_named_never_main.2 (GetOSArch "linux" "amd64")
     [⟨some "tool_linux_amd64", some 1⟩] "tool_linux_amd64" (by decide)⟩

/-- Character list of a non-empty string is non-empty. -/
theorem data_ne_nil {s : String} (h : s ≠ "") : s.data ≠ [] := by
  intro hd
  apply h
  cases s
  simp only at hd
  subst hd
  rfl



theorem parseArgs_ok_no_at (owner repo : String)
    (ho : owner ≠ "") (hr : repo ≠ "")
    (ho1 : '/' ∉ owner.data) (ho2 : '@' ∉ owner.data)
    (hr1 : '/' ∉ repo.data) (hr2 : '@' ∉ repo.data) :
    ParseArgs (owner ++ "/" ++ repo) = .ok ⟨owner, repo, "latest"⟩ := by
  have hdata : (owner ++ "/" ++ repo).data = owner.data ++ '/' :: repo.data := by
    simp [String.data_append]
  have hat : ¬((owner ++ "/" ++ repo).data.contains '@' = true) := by
    rw [hdata, List.elem_iff]
    intro hmem
    rcases List.mem_append.mp hmem with h | h
    · exact ho2 h
    · rcases List.mem_cons.mp h with h | h
      · exact absurd h (by decide)
      · exact hr2 h
  have hsplit : splitOnChar '/' ((owner ++ "/" ++ repo).data) = [owner.data, repo.data] := by
    rw [hdata, splitOnChar_append repo.data ho1, splitOnChar_of_not_mem hr1]
  have hod := data_ne_nil ho
  have hrd := data_ne_nil hr
  have hco : owner.data.contains '/' = false :=
    Bool.eq_false_iff.mpr (fun hh => ho1 (List.elem_iff.mp hh))
  have hca : owner.data.contains '@' = false :=
    Bool.eq_false_iff.mpr (fun hh => ho2 (List.elem_iff.mp hh))
  have hcr : repo.data.contains '/' = false :=
    Bool.eq_false_iff.mpr (fun hh => hr1 (List.elem_iff.mp hh))
  have hcra : repo.data.contains '@' = false :=
    Bool.eq_false_iff.mpr (fun hh => hr2 (List.elem_iff.mp hh))
  unfold ParseArgs
  rw [if_neg hat]
  simp only [hsplit]
  simp [hod, hrd, validateOwnerRepo, hco, hca, hcr, hcra, ho1, ho2, hr1, hr2]

theorem parseArgs_ok_with_at (owner repo tag : String)
    (ho : owner ≠ "") (hr : repo ≠ "")
    (ho1 : '/' ∉ owner.data) (ho2 : '@' ∉ owner.data)
    (hr1 : '/' ∉ repo.data) (hr2 : '@' ∉ repo.data)
    (ht : tag ≠ "") (ht2 : '@' ∉ tag.data) :
    ParseArgs (owner ++ "/" ++ repo ++ "@" ++ tag) = .ok ⟨owner, repo, tag⟩ := by
  have hdata : (owner ++ "/" ++ repo ++ "@" ++ tag).data =
      (owner.data ++ '/' :: repo.data) ++ '@' :: tag.data := by
    simp [String.data_append]
  have hnoat : '@' ∉ owner.data ++ '/' :: repo.data := by
    intro hmem
    rcases List.mem_append.mp hmem with h | h
    · exact ho2 h
    · rcases List.mem_cons.mp h with h | h
      · exact absurd h (by decide)
      · exact hr2 h
  have hsplit : splitOnChar '@' ((owner ++ "/" ++ repo ++ "@" ++ tag).data) =
      [owner.data ++ '/' :: repo.data, tag.data] := by
    rw [hdata, splitOnChar_append tag.data hnoat, splitOnChar_of_not_mem ht2]
  have hat : (owner ++ "/" ++ repo ++ "@" ++ tag).data.contains '@' = true := by
    rw [List.elem_iff, hdata]
    exact List.mem_append.mpr (Or.inr (List.mem_cons_self _ _))
  have hsplit2 : splitOnChar '/' (owner.data ++ '/' :: repo.data) = [owner.data, repo.data] := by
    rw [splitOnChar_append repo.data ho1, splitOnChar_of_not_mem hr1]
  have hod := data_ne_nil ho
  have hrd := data_ne_nil hr
  have htd := data_ne_nil ht
  unfold ParseArgs
  rw [if_pos hat]
  simp only [hsplit]
  rw [if_neg (by simp)]
  rw [if_neg (by simpa using htd)]
  simp only [List.headD_cons]
  simp only [hsplit2]
  simp [hod, hrd, validateOwnerRepo, ho1, ho2, hr1, hr2,
    Bool.eq_false_iff.mpr (fun hh => ho1 (List.elem_iff.mp hh)),
    Bool.eq_false_iff.mpr (fun hh => ho2 (List.elem_iff.mp hh)),
    Bool.eq_false_iff.mpr (fun hh => hr1 (List.elem_iff.mp hh)),
    Bool.eq_false_iff.mpr (fun hh => hr2 (List.elem_iff.mp hh))]

theorem parseArgs_error_multi_at (s : String) (h : 2 ≤ s.data.count '@') :
    ∃ e, ParseArgs s = .error e ∧ containsSub e.data s.data = true := by
  have hat : s.data.contains '@' = true :=
    List.elem_iff.mpr (List.count_pos_iff.mp (by omega))
  have hlen : (splitOnChar '@' s.data).length ≠ 2 := by
    rw [length_splitOnChar]
    omega
  unfold ParseArgs
  rw [if_pos hat, if_pos hlen]
  refine ⟨_, rfl, ?_⟩
  rw [containsSub_infix_iff]
  exact ⟨"invalid argument format '".data,
    "': expected owner/repo[@version]".data, by simp [String.data_append]⟩

theorem parseArgs_error_empty_version (s : String) (h1 : s.data.count '@' = 1)
    (h2 : (splitOnChar '@' s.data).getLastD [] = []) :
    ∃ e, ParseArgs s = .error e ∧ containsSub e.data s.data = true := by
  have hat : s.data.contains '@' = true :=
    List.elem_iff.mpr (List.count_pos_iff.mp (by omega))
  have hlen : (splitOnChar '@' s.data).length = 2 := by
    rw [length_splitOnChar]
    omega
  unfold ParseArgs
  rw [if_pos hat, if_neg (not_not.mpr hlen), if_pos h2]
  refine ⟨_, rfl, ?_⟩
  rw [containsSub_infix_iff]
  exact ⟨"invalid argument format '".data,
    "': missing version after '@'".data, by simp [String.data_append]⟩

theorem parseArgs_error_bad_segment_at (s : String) (seg v : List Char)
    (hs : splitOnChar '@' s.data = [seg, v]) (hv : v ≠ [])
    (hbad : ∀ o r, splitOnChar '/' seg = [o, r] → o = [] ∨ r = []) :
    ∃ e, ParseArgs s = .error e ∧ containsSub e.data seg = true := by
  have hat : s.data.contains '@' = true := by
    by_contra hc
    have hnm : '@' ∉ s.data := fun hm => hc (List.elem_iff.mpr hm)
    rw [splitOnChar_of_not_mem hnm] at hs
    cases hs
  have hcontain : ∀ msg : String,
      containsSub (msg ++ String.mk seg ++ "' before '@': expected owner/repo").data seg
        = true := by
    intro msg
    rw [containsSub_infix_iff]
    exact ⟨msg.data, "' before '@': expected owner/repo".data, by simp [String.data_append]⟩
  unfold ParseArgs
  rw [if_pos hat]
  simp only [hs, List.headD_cons]
  rw [if_neg (by simp), if_neg (by simpa using hv)]
  rcases hsp : splitOnChar '/' seg with _ | ⟨o, t⟩
  · exact absurd hsp (splitOnChar_ne_nil _ _)
  · rcases t with _ | ⟨r, t2⟩
    · exact ⟨_, rfl, hcontain _⟩
    · rcases t2 with _ | ⟨x, t3⟩
      · rcases hbad o r hsp with hb | hb
        · refine ⟨_, ?_, hcontain "invalid owner/repo format '"⟩
          simp [hb]
        · refine ⟨_, ?_, hcontain "invalid owner/repo format '"⟩
          simp [hb]
      · exact ⟨_, rfl, hcontain _⟩

theorem parseArgs_error_no_at (s : String) (hat : '@' ∉ s.data)
    (hbad : ∀ o r, splitOnChar '/' s.data = [o, r] → o = [] ∨ r = []) :
    ∃ e, ParseArgs s = .error e ∧ containsSub e.data s.data = true := by
  have hatc : ¬(s.data.contains '@' = true) := fun hc => hat (List.elem_iff.mp hc)
  have hcontain : ∀ msg : String,
      containsSub (msg ++ s ++ "': expected owner/repo or owner/repo@version").data s.data
        = true := by
    intro msg
    rw [containsSub_infix_iff]
    exact ⟨msg.data, "': expected owner/repo or owner/repo@version".data,
      by simp [String.data_append]⟩
  unfold ParseArgs
  rw [if_neg hatc]
  rcases hsp : splitOnChar '/' s.data with _ | ⟨o, t⟩
  · exact absurd hsp (splitOnChar_ne_nil _ _)
  · rcases t with _ | ⟨r, t2⟩
    · exact ⟨_, rfl, hcontain _⟩
    · rcases t2 with _ | ⟨x, t3⟩
      · rcases hbad o r hsp with hb | hb
        · refine ⟨_, ?_, hcontain "invalid owner/repo format '"⟩
          simp [hb]
        · refine ⟨_, ?_, hcontain "invalid owner/repo format '"⟩
          simp [hb]
      · exact ⟨_, rfl, hcontain _⟩

/-- C5: ParseArgs accepts owner/repo (version latest) and owner/repo at tag
for slash- and at-free non-empty owner and repo and non-empty at-free tag,
and rejects every other shape (multiple at signs, empty version after the at
sign, and an owner/repo segment that is not two non-empty slash-separated
halves) with an error naming the offending input or segment. -/
theorem C5_parse_args :
    (∀ owner repo : String, owner ≠ "" → repo ≠ "" →
      '/' ∉ owner.data → '@' ∉ owner.data → '/' ∉ repo.data → '@' ∉ repo.data →
      ParseArgs (owner ++ "/" ++ repo) = .ok ⟨owner, repo, "latest"⟩) ∧
    (∀ owner repo tag : String, owner ≠ "" → repo ≠ "" →
      '/' ∉ owner.data → '@' ∉ owner.data → '/' ∉ repo.data → '@' ∉ repo.data →
      tag ≠ "" → '@' ∉ tag.data →
      ParseArgs (owner ++ "/" ++ repo ++ "@" ++ tag) = .ok ⟨owner, repo, tag⟩) ∧
    (∀ s : String, 2 ≤ s.data.count '@' →
      ∃ e, ParseArgs s = .error e ∧ containsSub e.data s.data = true) ∧
    (∀ s : String, s.data.count '@' = 1 → (splitOnChar '@' s.data).getLastD [] = [] →
      ∃ e, ParseArgs s = .error e ∧ containsSub e.data s.data = true) ∧
    (∀ (s : String) (seg v : List Char), splitOnChar '@' s.data = [seg, v] → v ≠ [] →
      (∀ o r, splitOnChar '/' seg = [o, r] → o = [] ∨ r = []) →
      ∃ e, ParseArgs s = .error e ∧ containsSub e.data seg = true) ∧
    (∀ s : String, '@' ∉ s.data →
      (∀ o r, splitOnChar '/' s.data = [o, r] → o = [] ∨ r = []) →
      ∃ e, ParseArgs s = .error e ∧ containsSub e.data s.data = true) :=
  ⟨parseArgs_ok_no_at, parseArgs_ok_with_at, parseArgs_error_multi_at,
   parseArgs_error_empty_version, parseArgs_error_bad_segment_at, parseArgs_error_no_at⟩

/-- C5 witness: each clause of the parsing contract evaluated on a concrete
argument string. -/
theorem C5_parse_args_witness :
    ParseArgs "octo/hub" = Except.ok ⟨"octo", "hub", "latest"⟩ ∧
    ParseArgs "octo/hub@v1.2.3" = Except.ok ⟨"octo", "hub", "v1.2.3"⟩ ∧
    (∃ e, ParseArgs "octo/hub@v1@x" = Except.error e ∧
      containsSub e.data "octo/hub@v1@x".data = true) ∧
    (∃ e, ParseArgs "octo/hub@" = Except.error e ∧
      containsSub e.data "octo/hub@".data = true) ∧
    (∃ e, ParseArgs "octo@v1" = Except.error e ∧
      containsSub e.data "octo".data = true) ∧
    (∃ e, ParseArgs "octohub" = Except.error e ∧
      containsSub e.data "octohub".data = true) :=
  ⟨C5_parse_args.1 "octo" "hub" (by decide) (by decide) (by decide) (by decide)
      (by decide) (by decide),
   C5_parse_args.2.1 "octo" "hub" "v1.2.3" (by decide) (by decide) (by decide)
      (by decide) (by decide) (by decide) (by decide) (by decide),
   C5_parse_args.2.2.1 "octo/hub@v1@x" (by decide),
   C5_parse_args.2.2.2.1 "octo/hub@" (by decide) (by decide),
   C5_parse_args.2.2.2.2.1 "octo@v1" "octo".data "v1".data (by decide) (by decide)
      (by
        intro o r h
        rw [show splitOnChar '/' ("octo".data) = [("octo".data)] from rfl] at h
        exact absurd h (by simp)),
   C5_parse_args.2.2.2.2.2 "octohub" (by decide)
      (by
        intro o r h
        rw [show splitOnChar '/' ("octohub".data) = [("octohub".data)] from rfl] at h
        exact absurd h (by simp))⟩

end GhInstall
